import Mathlib

/-!
Shallow embedding of the governance check scripts of this repository
(`scripts/governance/*.py`): the baseline-ratchet runs, the AST-based
scanners, the circular-import DFS and the PyPI lookup handling, together
with theorems settling the specification's claims about them.

JSON dictionaries are modelled as association lists (insertion-ordered,
like Python dicts); a missing baseline file is `Option.none` where the
script distinguishes it, and `[]` where the loader collapses a missing
file to an empty dict.  Exit codes are the `Nat` the script passes to
`sys.exit`.  Printing and timestamp fields are not modelled: they do not
affect exit codes or persisted metric values.
-/

/-- Association-list model of a JSON object with numeric values
(`dict[str, int]` in the scripts). -/
abbrev NatDict : Type := List (String × Nat)

/-- Python's `d.get(k, default)` on a `NatDict`. -/
def dget (d : NatDict) (k : String) (default : Nat) : Nat :=
  match d.find? (fun kv => kv.1 == k) with
  | some kv => kv.2
  | none => default

/-- Association-list model of a JSON object with fractional values
(`dict[str, float]`, used for coverage percentages). -/
abbrev RatDict : Type := List (String × Rat)

/-- Python's `d.get(k)` on a `RatDict` (`None` when the key is absent). -/
def rget (d : RatDict) (k : String) : Option Rat :=
  match d.find? (fun kv => kv.1 == k) with
  | some kv => some kv.2
  | none => none

/-- Keys of a dict, in insertion order. -/
def rkeys (d : RatDict) : List String :=
  d.map Prod.fst

/-! ## check_type_safety.py

`check_type_safety` counts hole patterns into a dict `current` with a
`"total"` key, loads the baseline (`{}` when the file is missing), and
ratchets on the aggregate total.  The run is modelled as a function from
the current counts and the loaded baseline to the pair
(exit code, persisted baseline after the run). -/

/-- Embedding of `check_type_safety()` (check_type_safety.py lines 64-95).
`baseline` is the dict returned by `load_baseline()`: `[]` when the
baseline file is missing, otherwise the file's contents.  Returns
(exit code, baseline file contents after the run); when no write happens
the input baseline is returned unchanged. -/
def ts_run (current : NatDict) (baseline : NatDict) : Nat × NatDict :=
  if baseline = [] then
    (0, current)
  else
    let current_total := dget current "total" 0
    let baseline_total := dget baseline "total" 0
    if current_total > baseline_total then
      (1, baseline)
    else if current_total < baseline_total then
      (0, current)
    else
      (0, baseline)

/-! ## check_type_holes.py

`main()` of check_type_holes.py. `load_baseline()` returns
`{"total": 0}` when the baseline file is missing.  Outside
`--update-baseline` the script never writes the baseline file: it only
blocks (`exit 1`) when `total > baseline_total`. -/

/-- Embedding of `load_baseline()` (check_type_holes.py lines 72-75):
a missing file is collapsed to the dict `{"total": 0}`. -/
def th_load_baseline (baselineFile : Option NatDict) : NatDict :=
  match baselineFile with
  | none => [("total", 0)]
  | some d => d

/-- Embedding of `main()` of check_type_holes.py (lines 83-118) after the
per-file totals `totalTi` (type: ignore comments) and `totalAny` (Any
annotations) have been summed.  `filesFound` is `files != []`;
`updateBaseline` is the `--update-baseline` flag; `baselineFile` is the
baseline file's contents (`none` when the file does not exist).  Returns
(exit code, baseline file contents after the run). -/
def th_run (filesFound : Bool) (updateBaseline : Bool) (totalTi totalAny : Nat)
    (baselineFile : Option NatDict) : Nat × Option NatDict :=
  if !filesFound then
    (0, baselineFile)
  else
    let total := totalTi + totalAny
    if updateBaseline then
      (0, some [("total_type_ignores", totalTi), ("total_any", totalAny), ("total", total)])
    else
      let baseline := th_load_baseline baselineFile
      let baseline_total := dget baseline "total" 0
      if total > baseline_total then
        (1, baselineFile)
      else
        (0, baselineFile)

/-! ## guardrails_check.py

The module-level main of guardrails_check.py (lines 184-287), after the
scan has produced `fileViol` file-size violations and `funcViol`
function-size/complexity violations.  `load_baseline()` returns `None`
when the file is missing or unreadable, and the script uses
`baseline["total"] if baseline else 0`; baselines written by the script
always carry a `"total"` key, modelled with `dget`.  The timestamp field
of the persisted baseline is not modelled. -/

/-- Embedding of the main block of guardrails_check.py.  Returns
(exit code, baseline file contents after the run). -/
def gr_run (filesFound : Bool) (initMode : Bool) (fileViol funcViol : Nat)
    (baselineFile : Option NatDict) : Nat × Option NatDict :=
  if !filesFound then
    (0, baselineFile)
  else
    let total := fileViol + funcViol
    if initMode then
      (0, some [("file_violations", fileViol), ("func_violations", funcViol), ("total", total)])
    else
      let baseline_total :=
        match baselineFile with
        | none => 0
        | some b => dget b "total" 0
      if total > baseline_total then
        (1, baselineFile)
      else if total < baseline_total then
        (0, some [("file_violations", fileViol), ("func_violations", funcViol), ("total", total)])
      else
        (0, baselineFile)

/-! ## check_coverage_ratchet.py

`check_coverage_ratchet()` (lines 59-104).  `coverage` is the per-file
percent-covered mapping produced by `run_coverage()`; `baseline` is the
loaded baseline (`[]` when the file is missing).  New files (absent from
the baseline) are held to `COVERAGE_THRESHOLD = 80`; for existing files a
drop beyond 5 points only prints a warning and never blocks.  On pass the
persisted baseline is `{**baseline, **{k: max(v, baseline.get(k, 0)) for
k, v in coverage.items()}}`. -/

/-- The `COVERAGE_THRESHOLD` constant of check_coverage_ratchet.py. -/
def COVERAGE_THRESHOLD : Rat := 80

/-- Embedding of the pass-path baseline update of check_coverage_ratchet.py
line 101: Python's `{**baseline, **update}` keeps the baseline keys in
order (updated where the comprehension overrides them) and appends the
coverage-only keys in coverage order. -/
def cr_merge (baseline coverage : RatDict) : RatDict :=
  baseline.map (fun kv =>
    match rget coverage kv.1 with
    | some c => (kv.1, max c kv.2)
    | none => kv)
  ++ (coverage.filter (fun kv => rget baseline kv.1 == none)).map
      (fun kv => (kv.1, max kv.2 0))

/-- Embedding of `check_coverage_ratchet()` (check_coverage_ratchet.py
lines 59-104).  Returns (exit code, baseline file contents after the
run); `baseline = []` models a missing baseline file. -/
def cr_run (coverage baseline : RatDict) : Nat × RatDict :=
  if coverage = [] then
    (0, baseline)
  else if baseline = [] then
    (0, coverage)
  else
    let violations :=
      (coverage.filter (fun kv => rget baseline kv.1 == none && kv.2 < COVERAGE_THRESHOLD)).length
    if violations > 0 then
      (1, baseline)
    else
      (0, cr_merge baseline coverage)

/-! ## check_per_file_baseline.py

The module-level main (lines 121-224).  The global coverage, the
(exclusion-filtered) per-file coverages, the thresholds and the loaded
baseline are inputs; the result is (exit code, persisted baseline after
the run).  The baseline document's timestamp field is not modelled. -/

/-- Configuration of check_per_file_baseline.py (`parse_args()` defaults:
global minimum 70, new-file floor 80, regression tolerance 0.2). -/
structure PFConfig where
  global_min : Rat
  new_floor : Rat
  tolerance : Rat

/-- The default configuration of check_per_file_baseline.py. -/
def pfDefaults : PFConfig := { global_min := 70, new_floor := 80, tolerance := 0.2 }

/-- A persisted per-file coverage baseline document
(`{"global_coverage": .., "files": {..}}`). -/
structure PFBaseline where
  global_coverage : Rat
  files : RatDict

/-- Violations collected by check_per_file_baseline.py (lines 144-187):
the global-minimum check plus, when a baseline with a non-empty `files`
mapping is present, the new-file floor and regression checks. -/
def pf_violations (cfg : PFConfig) (globalCov : Rat) (fileCov : RatDict)
    (baseline : Option PFBaseline) : Nat :=
  let globalViol := if globalCov < cfg.global_min then 1 else 0
  let perFile :=
    match baseline with
    | none => 0
    | some b =>
      if b.files = [] then 0
      else
        (fileCov.filter (fun kv =>
          match rget b.files kv.1 with
          | none => kv.2 < cfg.new_floor
          | some bp => bp - kv.2 > cfg.tolerance)).length
  globalViol + perFile

/-- The ratchet update of check_per_file_baseline.py lines 196-213: every
current file whose coverage is absent from or above the baseline is
written back at its current value. -/
def pf_update (globalCov : Rat) (fileCov : RatDict) (b : PFBaseline) : PFBaseline :=
  let newFiles :=
    b.files.map (fun kv =>
      match rget fileCov kv.1 with
      | some c => if c > kv.2 then (kv.1, c) else kv
      | none => kv)
    ++ fileCov.filter (fun kv => rget b.files kv.1 == none)
  { global_coverage := globalCov, files := newFiles }

/-- Whether the update loop of check_per_file_baseline.py sets `improved`:
some current file is new to the baseline or strictly above it. -/
def pf_improved (fileCov : RatDict) (b : PFBaseline) : Bool :=
  fileCov.any (fun kv =>
    match rget b.files kv.1 with
    | none => true
    | some bp => kv.2 > bp)

/-- Embedding of the check path of check_per_file_baseline.py (lines
144-224, `--init` not taken).  Returns (exit code, baseline file contents
after the run). -/
def pf_run (cfg : PFConfig) (globalCov : Rat) (fileCov : RatDict)
    (baseline : Option PFBaseline) : Nat × Option PFBaseline :=
  if pf_violations cfg globalCov fileCov baseline = 0 then
    match baseline with
    | some b =>
      if b.files ≠ [] ∧ pf_improved fileCov b then
        (0, some (pf_update globalCov fileCov b))
      else
        (0, baseline)
    | none => (0, baseline)
  else
    (1, baseline)

/-! ## check_circular_deps.py — AST fallback cycle detector

`check_with_ast_fallback()` (lines 33-85) builds `graph`, a dict from
module name to the set of project-internal modules it imports, then runs
a DFS from every unvisited node, recording a cycle whenever an edge
reaches a node on the current recursion stack.  The graph is modelled as
an insertion-ordered association list whose dependency sets are ordered
lists (Python set iteration order fixed to the list order).  The mutable
`visited`, `rec_stack` and `cycles` of the script are threaded as an
explicit state; the recursion is fuelled, and the fuel `(allNodes g).length`
is proved sufficient (`runDetect_isSome`). -/

/-- An import graph: module name to the ordered list of its internal
dependencies (the `graph` dict of check_with_ast_fallback). -/
abbrev Graph : Type := List (String × List String)

/-- Python's `graph.get(node, [])`. -/
def getDeps (g : Graph) (node : String) : List String :=
  match g.find? (fun kv => kv.1 == node) with
  | some kv => kv.2
  | none => []

/-- The mutable state of the detector: `visited`, `rec_stack` (both sets,
modelled as duplicate-free lists) and the accumulated `cycles` list. -/
structure DfsState where
  visited : List String
  recStack : List String
  cycles : List (List String)

/-- The initial state (`visited, rec_stack = set(), set()`; `cycles = []`). -/
def initState : DfsState := { visited := [], recStack := [], cycles := [] }

/-- The cycle recorded at a back edge (`path[path.index(dep):] + [dep]`,
line 68 of check_circular_deps.py). -/
def cycleAt (path : List String) (dep : String) : List String :=
  path.drop (path.findIdx (fun x => x == dep)) ++ [dep]

/-- The `for dep in graph.get(node, [])` loop body of `dfs` (lines 66-71),
with the recursive call abstracted as `rec` (instantiated with the
next-lower-fuel `dfs`).  `none` propagates fuel exhaustion. -/
def dfsDeps (rec : String → List String → DfsState → Option DfsState) :
    List String → List String → DfsState → Option DfsState
  | [], _, st => some st
  | dep :: rest, path, st =>
    if dep ∈ st.recStack then
      dfsDeps rec rest path
        { st with cycles := st.cycles ++ [cycleAt path dep] }
    else if dep ∈ st.visited then
      dfsDeps rec rest path st
    else
      match rec dep (path ++ [dep]) st with
      | none => none
      | some st2 => dfsDeps rec rest path st2

/-- Embedding of `dfs(node, path)` (check_circular_deps.py lines 63-72):
mark the node visited, push it on the recursion stack, walk its
dependencies, then discard it from the recursion stack.  The first
argument is fuel; the script's unfuelled recursion is recovered by
`runDetect_isSome`. -/
def dfs (g : Graph) : Nat → String → List String → DfsState → Option DfsState
  | 0, _, _, _ => none
  | fuel + 1, node, path, st =>
    let st1 : DfsState :=
      { visited := node :: st.visited, recStack := node :: st.recStack, cycles := st.cycles }
    match dfsDeps (dfs g fuel) (getDeps g node) path st1 with
    | none => none
    | some st2 => some { st2 with recStack := st2.recStack.erase node }

/-- The root loop `for mod in graph: if mod not in visited: dfs(mod, [mod])`
(lines 74-76). -/
def runRoots (g : Graph) (fuel : Nat) : List (String × List String) → DfsState → Option DfsState
  | [], st => some st
  | (mod, _) :: rest, st =>
    if mod ∈ st.visited then
      runRoots g fuel rest st
    else
      match dfs g fuel mod [mod] st with
      | none => none
      | some st2 => runRoots g fuel rest st2

/-- All nodes the traversal can ever visit: the graph's keys and every
listed dependency, deduplicated. -/
def allNodes (g : Graph) : List String :=
  (g.map Prod.fst ++ g.foldr (fun (kv : String × List String) acc => kv.2 ++ acc) []).dedup

/-- The whole detection pass of check_with_ast_fallback (lines 59-76),
with fuel `(allNodes g).length` — proved sufficient below. -/
def runDetect (g : Graph) : Option DfsState :=
  runRoots g (allNodes g).length g initState

/-- The `cycles` list accumulated by check_with_ast_fallback. -/
def detectCycles (g : Graph) : List (List String) :=
  match runDetect g with
  | some st => st.cycles
  | none => []

/-- The cycles the script prints (`for cycle in cycles[:5]`, line 80):
the displayed report is the internal list truncated to 5. -/
def displayedCycles (g : Graph) : List (List String) :=
  (detectCycles g).take 5

/-- An edge of the import graph: `b` is among the imports of `a`. -/
def isEdge (g : Graph) (a b : String) : Prop :=
  b ∈ getDeps g a

instance (g : Graph) (a b : String) : Decidable (isEdge g a b) :=
  inferInstanceAs (Decidable (b ∈ getDeps g a))

/-- Executable check that consecutive entries of a list are joined by
edges (a computable mirror of `List.Chain' (isEdge g)`, to which it is
proved equivalent in `chainB_iff` below). -/
def chainB (g : Graph) : List String → Bool
  | [] => true
  | [_] => true
  | a :: b :: rest => decide (isEdge g a b) && chainB g (b :: rest)

/-- A genuine cycle of the import graph, in the shape the detector
records them: at least two entries, consecutive entries joined by edges,
and the first entry repeated at the end. -/
def IsCycleOf (g : Graph) (c : List String) : Prop :=
  2 ≤ c.length ∧ c.head? = c.getLast? ∧ chainB g c = true

instance (g : Graph) (c : List String) : Decidable (IsCycleOf g c) :=
  inferInstanceAs (Decidable (2 ≤ c.length ∧ c.head? = c.getLast? ∧ chainB g c = true))

/-- An import graph with no genuine cycle. -/
def Acyclic (g : Graph) : Prop :=
  ∀ c : List String, ¬ IsCycleOf g c

/-- Nodes of `allNodes g` not yet in the visited set: the measure that
shrinks as the DFS runs, used to prove the fuel sufficient. -/
def unvisitedCount (g : Graph) (visited : List String) : Nat :=
  ((allNodes g).filter (fun n => decide (n ∉ visited))).length

/-- The triangle graph of the specification: `{A→B, B→C, C→A}`. -/
def gTriangle : Graph := [("A", ["B"]), ("B", ["C"]), ("C", ["A"])]

/-- The self-import graph of the specification: `{A→A}`. -/
def gSelfLoop : Graph := [("A", ["A"])]

/-- A graph with two genuine cycles (`A→B→C→A` and `A→D→C→A`) of which
the DFS records only the first: when the traversal reaches `C` again via
`D`, `C` is already visited but no longer on the recursion stack, so the
second cycle is never recorded. -/
def gMissed : Graph := [("A", ["B", "D"]), ("B", ["C"]), ("C", ["A"]), ("D", ["C"])]

/-- A hub graph with six two-node cycles, exceeding the display cap of
five. -/
def gManyCycles : Graph :=
  [("A", ["B", "C", "D", "E", "F", "G"]), ("B", ["A"]), ("C", ["A"]),
   ("D", ["A"]), ("E", ["A"]), ("F", ["A"]), ("G", ["A"])]

/-! ## check_type_holes.py — per-file scanner

`analyze_file` (check_type_holes.py lines 43-61) reads a file (returning
all-zero facts on `OSError`/`UnicodeDecodeError`), counts the
`# type: ignore` regex matches on the raw text, and counts `Any` name
nodes via the AST (zero when `ast.parse` raises `SyntaxError`).  A file
is modelled by the outcome of those steps: whether the read succeeds, the
number of regex matches in its text, whether it parses, and the number of
`Any` name nodes in its tree. -/

/-- Outcome model of one file as seen by `analyze_file`. -/
structure PyFile where
  readOk : Bool
  tiCount : Nat
  parseOk : Bool
  anyCount : Nat
deriving DecidableEq

/-- The per-file fact record of `analyze_file`
(`{"type_ignore": .., "any": .., "total": ..}`). -/
structure THFacts where
  type_ignore : Nat
  anyHoles : Nat
  total : Nat
deriving DecidableEq

/-- Embedding of `analyze_file` (check_type_holes.py lines 43-61): a
failed read yields all-zero facts; a failed parse zeroes only the
AST-derived `Any` count, the regex count on the raw text survives. -/
def analyze_file (f : PyFile) : THFacts :=
  if !f.readOk then
    { type_ignore := 0, anyHoles := 0, total := 0 }
  else
    let ti := f.tiCount
    let anyC := if f.parseOk then f.anyCount else 0
    { type_ignore := ti, anyHoles := anyC, total := ti + anyC }

/-- The summation loop of `main()` (check_type_holes.py lines 94-98):
total `type: ignore` and `Any` counts over all scanned files. -/
def th_scan (files : List PyFile) : Nat × Nat :=
  files.foldl
    (fun acc f => (acc.1 + (analyze_file f).type_ignore, acc.2 + (analyze_file f).anyHoles))
    (0, 0)

/-! ## check_silent_catches.py — AST visitor

`SilentCatchVisitor` (lines 23-81).  The statements of a handler body are
modelled by the branch structure of `_is_silent`: `pass`, `raise`,
`return`, expression statements (whose value may be a call with a given
callee shape), and every other statement kind (`Assign`, `For`, ...)
which the final `not isinstance(stmt, (Pass, Expr))` test treats
uniformly. -/

/-- The callee of a call expression, as `_is_logging_call` inspects it:
an attribute access (`obj.debug(...)`), a plain name (`print(...)`), or
anything else. -/
inductive PyCallFunc where
  | attributeF (attr : String)
  | nameF (id : String)
  | otherF
deriving DecidableEq

/-- The value of an expression statement: a call with its callee, or a
non-call expression (a bare string, a constant, ...). -/
inductive PyExprVal where
  | call (func : PyCallFunc)
  | nonCall
deriving DecidableEq

/-- A statement of an exception-handler body, at the granularity
`_is_silent` distinguishes. `otherStmt` stands for every statement class
that is neither `Pass`, `Raise`, `Return` nor `Expr` (assignments, loops,
conditionals, ...). -/
inductive PyStmt where
  | passStmt
  | raiseStmt
  | returnStmt
  | exprStmt (value : PyExprVal)
  | otherStmt
deriving DecidableEq

/-- Embedding of `_is_logging_call` (check_silent_catches.py lines
58-73). -/
def is_logging_call (f : PyCallFunc) : Bool :=
  match f with
  | .attributeF attr =>
    attr.toLower ∈ ["debug", "info", "warning", "error", "critical", "exception", "log", "warn"]
  | .nameF id => id == "print"
  | .otherF => false

/-- The loop of `_is_silent` (check_silent_catches.py lines 44-55) over
the remaining body statements. -/
def is_silent_loop : List PyStmt → Bool
  | [] => true
  | stmt :: rest =>
    match stmt with
    | .passStmt => is_silent_loop rest
    | .raiseStmt => false
    | .returnStmt => false
    | .exprStmt (.call f) => if is_logging_call f then false else is_silent_loop rest
    | .exprStmt .nonCall => is_silent_loop rest
    | .otherStmt => false

/-- Embedding of `_is_silent` (check_silent_catches.py lines 41-56): an
empty body is silent, otherwise the loop decides. -/
def is_silent (body : List PyStmt) : Bool :=
  if body.isEmpty then true else is_silent_loop body

/-- The `except` clause type, as `visit_ExceptHandler` classifies it for
the report string. -/
inductive ExcClause where
  | bare
  | nameC (id : String)
  | tupleC
  | otherC
deriving DecidableEq

/-- The `exc_type` description string of `visit_ExceptHandler` (lines
31-35): only a `Name` or a `Tuple` clause overrides "bare except". -/
def exc_type_desc (c : ExcClause) : String :=
  match c with
  | .nameC id => id
  | .tupleC => "multiple exceptions"
  | .bare => "bare except"
  | .otherC => "bare except"

/-- One `ExceptHandler` node of a parsed file: its line, its clause, its
body, and whether a `SILENT_CATCH:` marker is on the handler's or the
previous source line (`_has_marker`). -/
structure Handler where
  lineno : Nat
  clause : ExcClause
  body : List PyStmt
  hasMarker : Bool
deriving DecidableEq

/-- The violation `visit_ExceptHandler` records for one handler (lines
37-38): reported iff the body is silent and no marker excuses it. -/
def handler_violations (h : Handler) : List (Nat × String) :=
  if is_silent h.body && !h.hasMarker then [(h.lineno, exc_type_desc h.clause)] else []

/-- Whether `visit_ExceptHandler` reports the handler at all. -/
def reports (h : Handler) : Bool :=
  is_silent h.body && !h.hasMarker

/-- Outcome of reading and parsing one file in the silent-catch check:
either the file parses into its list of `ExceptHandler` nodes (in visit
order); or `read_text`/`ast.parse` raises an `OSError` or a
`SyntaxError`, which the `except (OSError, SyntaxError)` clause of
`check_file` catches; or `read_text` raises a `UnicodeDecodeError` on
undecodable bytes — that class is not in the `except` clause, so the
exception propagates out of `check_file`. -/
inductive SCFileOutcome where
  | parsed (handlers : List Handler)
  | caughtError
  | decodeError
deriving DecidableEq

/-- Embedding of `check_file` (check_silent_catches.py lines 84-92): a
caught `OSError`/`SyntaxError` yields zero violations, a parsed file
yields its handlers' violations, and an uncaught `UnicodeDecodeError`
escapes as an exception (`Except.error`). -/
def sc_check_file (f : SCFileOutcome) : Except Unit (List (Nat × String)) :=
  match f with
  | .parsed hs => .ok (hs.foldr (fun h acc => handler_violations h ++ acc) [])
  | .caughtError => .ok []
  | .decodeError => .error ()

/-- The collection loop of `main()` (check_silent_catches.py lines
115-120): files are processed left to right and their violations
concatenated; an exception escaping `check_file` aborts the loop — and
with it the whole run — at that file. -/
def sc_scan : List SCFileOutcome → Except Unit (List (Nat × String))
  | [] => .ok []
  | f :: rest =>
    match sc_check_file f with
    | .error e => .error e
    | .ok vs =>
      match sc_scan rest with
      | .error e => .error e
      | .ok acc => .ok (vs ++ acc)

/-! ## check_hallucinations_pypi.py

`check_pypi` (lines 73-100) wraps one registry lookup.  The lookup's
outcome is modelled as: a successful JSON response carrying the package's
computed age in days when some release has a parseable upload time (the
`datetime` arithmetic itself is external input here), an HTTP error with
its status code, or any other failure (timeout, connection error,
malformed JSON, ...). -/

/-- Outcome of the `urlopen` request and response parsing for one
package. -/
inductive PyPIResponse where
  | success (infoName : String) (ageDays : Option Nat)
  | httpError (code : Nat)
  | otherFailure
deriving DecidableEq

/-- The result record of `check_pypi`
(`{"exists": .., "age_days": .., "name": ..}`). -/
structure PkgInfo where
  pkgExists : Bool
  age_days : Nat
  name : String
deriving DecidableEq

/-- The `MIN_DAYS_OLD` constant of check_hallucinations_pypi.py. -/
def MIN_DAYS_OLD : Nat := 30

/-- Embedding of `check_pypi` (check_hallucinations_pypi.py lines
73-100): a success reports the computed age (999 when no release date was
found); an HTTP 404 is the only outcome reported as nonexistent; every
other HTTP error and every other exception degrades to
`{exists: True, age_days: 999}`. -/
def check_pypi (package_name : String) (resp : PyPIResponse) : PkgInfo :=
  match resp with
  | .success infoName (some age) => { pkgExists := true, age_days := age, name := infoName }
  | .success infoName none => { pkgExists := true, age_days := 999, name := infoName }
  | .httpError code =>
    if code = 404 then
      { pkgExists := false, age_days := 0, name := package_name }
    else
      { pkgExists := true, age_days := 999, name := package_name }
  | .otherFailure => { pkgExists := true, age_days := 999, name := package_name }

/-- The blocking decision of `main()` for one looked-up package
(check_hallucinations_pypi.py lines 140-145): blocked when nonexistent or
younger than `MIN_DAYS_OLD` days. -/
def pkg_blocked (info : PkgInfo) : Bool :=
  !info.pkgExists || info.age_days < MIN_DAYS_OLD

/-- Whether a statement is a `pass` or an expression statement — the two
statement classes the final test of `_is_silent`
(`not isinstance(stmt, (Pass, Expr))`) lets the loop continue past. -/
def isPassOrExprStmt : PyStmt → Bool
  | .passStmt => true
  | .exprStmt _ => true
  | _ => false

/-! ## Theorems -/

/-- Auxiliary: `chainB` agrees with `List.Chain' (isEdge g)`. -/
theorem chainB_iff (g : Graph) : ∀ l : List String, chainB g l = true ↔ l.Chain' (isEdge g)
  | [] => by simp [chainB]
  | [a] => by simp [chainB]
  | a :: b :: rest => by
    simp [chainB, List.chain'_cons, chainB_iff g (b :: rest), and_comm]

/-- C1: for every run of a violation-count ratchet script
(check_type_safety, check_type_holes without `--update-baseline`,
guardrails_check without `--init`) against an existing persisted
baseline, the persisted baseline's aggregate total after the run is at
most the total before the run; and whenever the current total is
strictly worse (greater) than the baseline total, the run exits 1 and
the persisted baseline is left unchanged. -/
theorem ratchet_total_never_increases :
    (∀ current baseline : NatDict, baseline ≠ [] →
      dget (ts_run current baseline).2 "total" 0 ≤ dget baseline "total" 0 ∧
      (dget baseline "total" 0 < dget current "total" 0 →
        ts_run current baseline = (1, baseline))) ∧
    (∀ (filesFound : Bool) (totalTi totalAny : Nat) (bf : Option NatDict),
      (th_run filesFound false totalTi totalAny bf).2 = bf ∧
      (filesFound = true → dget (th_load_baseline bf) "total" 0 < totalTi + totalAny →
        th_run filesFound false totalTi totalAny bf = (1, bf))) ∧
    (∀ (filesFound : Bool) (fileViol funcViol : Nat) (b : NatDict),
      dget ((gr_run filesFound false fileViol funcViol (some b)).2.getD []) "total" 0 ≤
        dget b "total" 0 ∧
      (filesFound = true → dget b "total" 0 < fileViol + funcViol →
        gr_run filesFound false fileViol funcViol (some b) = (1, some b))) := by
  refine ⟨?_, ?_, ?_⟩
  · intro current baseline hb
    unfold ts_run
    simp only [hb, if_false]
    constructor
    · split
      · simp
      · split
        · simp
          omega
        · simp
    · intro hlt
      split
      · rfl
      · omega
  · intro filesFound totalTi totalAny bf
    unfold th_run
    cases filesFound with
    | false => simp
    | true =>
      simp only [Bool.not_true, Bool.false_eq_true, if_false, if_true]
      constructor
      · split <;> rfl
      · intro _ hlt
        split
        · rfl
        · omega
  · intro filesFound fileViol funcViol b
    unfold gr_run
    cases filesFound with
    | false => simp
    | true =>
      simp only [Bool.not_true, Bool.false_eq_true, if_false, if_true]
      constructor
      · split
        · simp
        · split
          · have hd : dget [("file_violations", fileViol), ("func_violations", funcViol),
                ("total", fileViol + funcViol)] "total" 0 = fileViol + funcViol := rfl
            simp only [Option.getD_some, hd]
            omega
          · simp
      · intro _ hlt
        split
        · rfl
        · omega

/-- Witness for C1 at concrete inputs: baseline total 5, current total 7
is blocked with the baseline left unchanged by check_type_safety. -/
theorem ratchet_total_never_increases_witness :
    ts_run [("total", 7)] [("total", 5)] = (1, [("total", 5)]) :=
  (ratchet_total_never_increases.1 [("total", 7)] [("total", 5)] (by decide)).2 (by decide)

/-- Auxiliary: an entry's key always resolves to a value
(`d.get(k)` is not `None` when `k` is a key of `d`). -/
theorem rget_isSome_of_mem {d : RatDict} {kv : String × Rat} (h : kv ∈ d) :
    (rget d kv.1).isSome := by
  unfold rget
  have hs : (d.find? (fun x => x.1 == kv.1)).isSome :=
    List.find?_isSome.mpr ⟨kv, h, by simp⟩
  rcases hf : d.find? (fun x => x.1 == kv.1) with _ | x
  · rw [hf] at hs
    simp at hs
  · rw [hf]
    rfl

/-- Auxiliary: `rget` on a key-preserving map rewrites to a `find?` on the
underlying dict. -/
theorem rget_map_keyfix (d : RatDict) (f : String × Rat → String × Rat)
    (hf : ∀ kv, (f kv).1 = kv.1) (k : String) :
    rget (d.map f) k = (d.find? (fun kv => kv.1 == k)).map (fun kv => (f kv).2) := by
  unfold rget
  rw [List.find?_map]
  have hp : ((fun kv : String × Rat => kv.1 == k) ∘ f) = fun kv => kv.1 == k := by
    funext kv
    simp [hf]
  rw [hp]
  cases d.find? (fun kv => kv.1 == k) <;> simp

/-- Auxiliary: `rget` distributes over append, preferring the left dict. -/
theorem rget_append (l1 l2 : RatDict) (k : String) :
    rget (l1 ++ l2) k = ((rget l1 k).or (rget l2 k)) := by
  unfold rget
  rw [List.find?_append]
  cases l1.find? (fun kv => kv.1 == k) <;> cases l2.find? (fun kv => kv.1 == k) <;> simp

/-- Auxiliary: a found entry determines `rget`. -/
theorem rget_of_find? {d : RatDict} {k : String} {kv : String × Rat}
    (h : d.find? (fun x => x.1 == k) = some kv) : rget d k = some kv.2 := by
  unfold rget
  rw [h]

/-- Auxiliary: under the same-key-set and strict-improvement hypotheses of
a clean coverage improvement, the persisted merge
`{**baseline, **{k: max(v, baseline.get(k, 0)) for k, v in coverage}}`
agrees with the current coverage on every key. -/
theorem cr_merge_pointwise (baseline coverage : RatDict)
    (hkeys : ∀ k, (rget baseline k).isSome ↔ (rget coverage k).isSome)
    (himp : ∀ k b c, rget baseline k = some b → rget coverage k = some c → b < c) :
    ∀ k, rget (cr_merge baseline coverage) k = rget coverage k := by
  intro k
  unfold cr_merge
  have hfilter : coverage.filter (fun kv => rget baseline kv.1 == none) = [] := by
    rw [List.filter_eq_nil_iff]
    intro kv hkv
    have h1 : (rget coverage kv.1).isSome := rget_isSome_of_mem hkv
    have h2 : (rget baseline kv.1).isSome := (hkeys kv.1).mpr h1
    rcases hr : rget baseline kv.1 with _ | v
    · rw [hr] at h2
      simp at h2
    · simp
  rw [hfilter]
  simp only [List.map_nil, List.append_nil]
  rw [rget_map_keyfix]
  · rcases hf : baseline.find? (fun kv => kv.1 == k) with _ | kv
    · have hb : rget baseline k = none := by
        unfold rget
        rw [hf]
      rcases hc : rget coverage k with _ | c
      · rw [hf]
        rfl
      · have := (hkeys k).mpr (by rw [hc]; rfl)
        rw [hb] at this
        simp at this
    · have hk : kv.1 = k := by
        have := List.find?_some hf
        simpa using this
      have hb : rget baseline k = some kv.2 := rget_of_find? hf
      have hcs : (rget coverage k).isSome := (hkeys k).mp (by rw [hb]; rfl)
      rcases hc : rget coverage k with _ | c
      · rw [hc] at hcs
        simp at hcs
      · have hlt : kv.2 < c := himp k kv.2 c hb hc
        rw [hf]
        simp only [Option.map_some']
        rw [hk, hc]
        show some (max c kv.2) = some c
        rw [max_eq_left (le_of_lt hlt)]
  · intro kv
    rcases rget coverage kv.1 with _ | c <;> simp

/-- Auxiliary: `rget` on the empty dict. -/
theorem rget_nil (k : String) : rget [] k = none := rfl

/-- Auxiliary: a nonempty dict has a key whose lookup succeeds, so a dict
sharing its key set is nonempty too. -/
theorem ne_nil_of_same_keys {d e : RatDict}
    (hkeys : ∀ k, (rget d k).isSome ↔ (rget e k).isSome) (hd : d ≠ []) : e ≠ [] := by
  rcases d with _ | ⟨kv, rest⟩
  · exact absurd rfl hd
  · have h1 : (rget (kv :: rest) kv.1).isSome := rget_isSome_of_mem (List.mem_cons_self kv rest)
    have h2 : (rget e kv.1).isSome := (hkeys kv.1).mp h1
    intro he
    rw [he, rget_nil] at h2
    simp at h2

/-- Auxiliary: under the same-key-set and per-entry strict-improvement
hypotheses, the per-file ratchet update writes exactly the current
per-file coverages. -/
theorem pf_update_pointwise (globalCov : Rat) (fileCov : RatDict) (b : PFBaseline)
    (hkeys : ∀ k, (rget b.files k).isSome ↔ (rget fileCov k).isSome)
    (himp : ∀ kv ∈ fileCov, ∀ bp, rget b.files kv.1 = some bp → bp < kv.2) :
    ∀ k, rget (pf_update globalCov fileCov b).files k = rget fileCov k := by
  intro k
  unfold pf_update
  simp only
  rw [rget_append]
  have hfilter : fileCov.filter (fun kv => rget b.files kv.1 == none) = [] := by
    rw [List.filter_eq_nil_iff]
    intro kv hkv
    have h1 : (rget fileCov kv.1).isSome := rget_isSome_of_mem hkv
    have h2 : (rget b.files kv.1).isSome := (hkeys kv.1).mpr h1
    rcases hr : rget b.files kv.1 with _ | v
    · rw [hr] at h2
      simp at h2
    · simp
  rw [hfilter, rget_nil]
  rw [rget_map_keyfix]
  · rcases hf : b.files.find? (fun kv => kv.1 == k) with _ | kv
    · have hb : rget b.files k = none := by
        unfold rget
        rw [hf]
      rcases hc : rget fileCov k with _ | c
      · rw [hf]
        rfl
      · have := (hkeys k).mpr (by rw [hc]; rfl)
        rw [hb] at this
        simp at this
    · have hk : kv.1 = k := by
        have := List.find?_some hf
        simpa using this
      have hb : rget b.files k = some kv.2 := rget_of_find? hf
      have hcs : (rget fileCov k).isSome := (hkeys k).mp (by rw [hb]; rfl)
      rcases hfc : fileCov.find? (fun kv => kv.1 == k) with _ | kvc
      · have : rget fileCov k = none := by
          unfold rget
          rw [hfc]
        rw [this] at hcs
        simp at hcs
      · have hkc : kvc.1 = k := by
          have := List.find?_some hfc
          simpa using this
        have hmemc : kvc ∈ fileCov := List.mem_of_find?_eq_some hfc
        have hcv : rget fileCov k = some kvc.2 := rget_of_find? hfc
        have hlt : kv.2 < kvc.2 := himp kvc hmemc kv.2 (by rw [hkc, hb])
        rw [hf]
        simp only [Option.map_some']
        rw [hk, hcv]
        have hgt : kvc.2 > kv.2 := hlt
        simp only [hgt, if_true]
        simp [hcv]
  · intro kv
    rcases rget fileCov kv.1 with _ | c
    · rfl
    · by_cases h : c > kv.2 <;> simp [h]

/-- C2 counterexample: check_type_holes.py is a baseline ratchet
("Type Hole Ratchet"), yet with baseline total 5 and strictly better
current total 3 the run exits 0 and the persisted baseline file still
records total 5, not the current metrics — improvement is not captured. -/
theorem ratchet_improvement_cex :
    th_run true false 3 0 (some [("total", 5)]) = (0, some [("total", 5)]) ∧
    dget (th_load_baseline (th_run true false 3 0 (some [("total", 5)])).2) "total" 0 = 5 := by
  constructor <;> rfl

/-- C2 (amended): when an existing baseline B is loaded and the current
metric C is strictly better, the run exits successfully in all the
ratchet scripts, and check_type_safety, guardrails_check,
check_coverage_ratchet and check_per_file_baseline (with its global
minimum also met) persist C as the new baseline — but check_type_holes
leaves its baseline file unchanged, capturing no improvement outside
`--update-baseline`. -/
theorem ratchet_improvement_behaviour :
    (∀ current baseline : NatDict, baseline ≠ [] →
      dget current "total" 0 < dget baseline "total" 0 →
      ts_run current baseline = (0, current)) ∧
    (∀ (fileViol funcViol : Nat) (b : NatDict),
      fileViol + funcViol < dget b "total" 0 →
      gr_run true false fileViol funcViol (some b) =
        (0, some [("file_violations", fileViol), ("func_violations", funcViol),
                  ("total", fileViol + funcViol)])) ∧
    (∀ coverage baseline : RatDict, baseline ≠ [] →
      (∀ k, (rget baseline k).isSome ↔ (rget coverage k).isSome) →
      (∀ k b c, rget baseline k = some b → rget coverage k = some c → b < c) →
      (cr_run coverage baseline).1 = 0 ∧
      ∀ k, rget (cr_run coverage baseline).2 k = rget coverage k) ∧
    (∀ (globalCov : Rat) (fileCov : RatDict) (b : PFBaseline), b.files ≠ [] →
      pfDefaults.global_min ≤ globalCov →
      (∀ k, (rget b.files k).isSome ↔ (rget fileCov k).isSome) →
      (∀ kv ∈ fileCov, ∀ bp, rget b.files kv.1 = some bp → bp < kv.2) →
      (pf_run pfDefaults globalCov fileCov (some b)).1 = 0 ∧
      ∀ k, rget ((pf_run pfDefaults globalCov fileCov (some b)).2.getD b).files k =
        rget fileCov k) ∧
    (∀ (totalTi totalAny : Nat) (b : NatDict),
      totalTi + totalAny < dget b "total" 0 →
      th_run true false totalTi totalAny (some b) = (0, some b)) := by
  refine ⟨?_, ?_, ?_, ?_, ?_⟩
  · intro current baseline hb hlt
    unfold ts_run
    simp only [hb, if_false]
    have h1 : ¬ dget current "total" 0 > dget baseline "total" 0 := by omega
    simp only [h1, if_false, hlt, if_true]
  · intro fileViol funcViol b hlt
    unfold gr_run
    simp only [Bool.not_true, Bool.false_eq_true, if_false, if_true]
    have h1 : ¬ fileViol + funcViol > dget b "total" 0 := by omega
    simp only [h1, if_false, hlt, if_true]
  · intro coverage baseline hbne hkeys himp
    have hcne : coverage ≠ [] := ne_nil_of_same_keys hkeys hbne
    have hfilter :
        coverage.filter (fun kv => rget baseline kv.1 == none && kv.2 < COVERAGE_THRESHOLD)
          = [] := by
      rw [List.filter_eq_nil_iff]
      intro kv hkv
      have h1 : (rget coverage kv.1).isSome := rget_isSome_of_mem hkv
      have h2 : (rget baseline kv.1).isSome := (hkeys kv.1).mpr h1
      rcases hr : rget baseline kv.1 with _ | v
      · rw [hr] at h2
        simp at h2
      · simp
    have hrun : cr_run coverage baseline = (0, cr_merge baseline coverage) := by
      unfold cr_run
      rw [if_neg hcne, if_neg hbne, hfilter]
      rfl
    rw [hrun]
    exact ⟨rfl, cr_merge_pointwise baseline coverage hkeys himp⟩
  · intro globalCov fileCov b hbne hg hkeys himp
    have hviol : pf_violations pfDefaults globalCov fileCov (some b) = 0 := by
      unfold pf_violations
      have hgv : ¬ globalCov < pfDefaults.global_min := not_lt.mpr hg
      simp only [hgv, if_false, hbne]
      have hfilter :
          fileCov.filter (fun kv =>
            match rget b.files kv.1 with
            | none => decide (kv.2 < pfDefaults.new_floor)
            | some bp => decide (bp - kv.2 > pfDefaults.tolerance)) = [] := by
        rw [List.filter_eq_nil_iff]
        intro kv hkv
        have h1 : (rget fileCov kv.1).isSome := rget_isSome_of_mem hkv
        have h2 : (rget b.files kv.1).isSome := (hkeys kv.1).mpr h1
        rcases hr : rget b.files kv.1 with _ | bp
        · rw [hr] at h2
          simp at h2
        · have hlt : bp < kv.2 := himp kv hkv bp hr
          simp only
          have : ¬ bp - kv.2 > pfDefaults.tolerance := by
            unfold pfDefaults
            simp only
            intro hgt
            have h3 : bp - kv.2 < 0 := by linarith
            have h4 : (0 : Rat) < 0.2 := by norm_num
            linarith
          simpa using this
      rw [hfilter]
      rfl
    have himproved : pf_improved fileCov b = true := by
      unfold pf_improved
      obtain ⟨kv0, hkv0⟩ := List.exists_mem_of_ne_nil b.files hbne
      have h1 : (rget b.files kv0.1).isSome := rget_isSome_of_mem hkv0
      have h2 : (rget fileCov kv0.1).isSome := (hkeys kv0.1).mp h1
      rcases hfc : fileCov.find? (fun kv => kv.1 == kv0.1) with _ | kvc
      · have hnone : rget fileCov kv0.1 = none := by
          unfold rget
          rw [hfc]
        rw [hnone] at h2
        simp at h2
      · have hmemc : kvc ∈ fileCov := List.mem_of_find?_eq_some hfc
        rw [List.any_eq_true]
        refine ⟨kvc, hmemc, ?_⟩
        rcases hr : rget b.files kvc.1 with _ | bp
        · rfl
        · have hlt : bp < kvc.2 := himp kvc hmemc bp hr
          simpa using hlt
    unfold pf_run
    rw [hviol]
    simp only [if_true]
    have hcond : (b.files ≠ [] ∧ pf_improved fileCov b = true) := ⟨hbne, himproved⟩
    rw [if_pos hcond]
    exact ⟨rfl, pf_update_pointwise globalCov fileCov b hkeys himp⟩
  · intro totalTi totalAny b hlt
    unfold th_run
    simp only [Bool.not_true, Bool.false_eq_true, if_false, if_true, th_load_baseline]
    have h1 : ¬ totalTi + totalAny > dget b "total" 0 := by omega
    simp only [h1, if_false]

/-- Witness for C2 (amended) at concrete inputs: baseline total 5,
current total 3 is persisted by check_type_safety with exit 0. -/
theorem ratchet_improvement_behaviour_witness :
    ts_run [("total", 3)] [("total", 5)] = (0, [("total", 3)]) :=
  ratchet_improvement_behaviour.1 [("total", 3)] [("total", 5)] (by decide) (by decide)

/-- C3 counterexample: check_type_holes.py is a ratchet script, yet on a
first run (no baseline file) with current total 10 it exits 1 — its
loader treats the missing baseline as total 0 — and no baseline file is
created. -/
theorem first_run_cex : th_run true false 10 0 none = (1, none) := rfl

/-- C3 (amended): on a first run with no baseline file present,
check_type_safety and check_coverage_ratchet exit 0 and create a baseline
equal to the current metrics (e.g. current total 10 → exit 0,
baseline total 10); but check_type_holes, guardrails_check and
check_per_file_baseline create no baseline outside their explicit
init flags — the first two treat the missing baseline as total 0 and
exit 1 whenever the current total is positive. -/
theorem first_run_behaviour :
    (∀ current : NatDict, ts_run current [] = (0, current)) ∧
    (∀ coverage : RatDict, coverage ≠ [] → cr_run coverage [] = (0, coverage)) ∧
    (∀ (filesFound : Bool) (totalTi totalAny : Nat),
      (th_run filesFound false totalTi totalAny none).2 = none ∧
      (filesFound = true → 0 < totalTi + totalAny →
        th_run filesFound false totalTi totalAny none = (1, none))) ∧
    (∀ (filesFound : Bool) (fileViol funcViol : Nat),
      (gr_run filesFound false fileViol funcViol none).2 = none ∧
      (filesFound = true → 0 < fileViol + funcViol →
        gr_run filesFound false fileViol funcViol none = (1, none))) ∧
    (∀ (cfg : PFConfig) (globalCov : Rat) (fileCov : RatDict),
      (pf_run cfg globalCov fileCov none).2 = none) := by
  refine ⟨?_, ?_, ?_, ?_, ?_⟩
  · intro current
    rfl
  · intro coverage hne
    unfold cr_run
    rw [if_neg hne, if_pos rfl]
  · intro filesFound totalTi totalAny
    cases filesFound with
    | false => exact ⟨rfl, by intro h; cases h⟩
    | true =>
      constructor
      · unfold th_run
        simp only [Bool.not_true, Bool.false_eq_true, if_false, if_true, th_load_baseline]
        split <;> rfl
      · intro _ hpos
        unfold th_run
        simp only [Bool.not_true, Bool.false_eq_true, if_false, if_true, th_load_baseline]
        have h1 : totalTi + totalAny > dget [("total", 0)] "total" 0 := by
          have : dget [("total", 0)] "total" 0 = 0 := rfl
          omega
        rw [if_pos h1]
  · intro filesFound fileViol funcViol
    cases filesFound with
    | false => exact ⟨rfl, by intro h; cases h⟩
    | true =>
      constructor
      · unfold gr_run
        simp only [Bool.not_true, Bool.false_eq_true, if_false, if_true]
        split
        · rfl
        · split
          · omega
          · rfl
      · intro _ hpos
        unfold gr_run
        simp only [Bool.not_true, Bool.false_eq_true, if_false, if_true]
        rw [if_pos]
        omega
  · intro cfg globalCov fileCov
    unfold pf_run
    split
    · rfl
    · rfl

/-- Witness for C3 (amended) at concrete inputs: check_type_safety with
no baseline and current total 10 exits 0, creating the baseline at 10;
the coverage ratchet likewise adopts the current snapshot. -/
theorem first_run_behaviour_witness :
    ts_run [("total", 10)] [] = (0, [("total", 10)]) ∧
    cr_run [("src/main.py", 10)] [] = (0, [("src/main.py", 10)]) :=
  ⟨first_run_behaviour.1 [("total", 10)],
   first_run_behaviour.2.1 [("src/main.py", 10)] (by decide)⟩

/-- C4 counterexample: with the baseline file missing (empty baseline),
check_coverage_ratchet does not apply the 80% new-file floor: a current
snapshot whose only file sits at 10% passes with exit 0 (the snapshot is
simply adopted as the new baseline), although 10 < 80. -/
theorem new_file_floor_cex :
    cr_run [("new.py", 10)] [] = (0, [("new.py", 10)]) ∧
    (10 : Rat) < COVERAGE_THRESHOLD := by
  constructor
  · rfl
  · decide

/-- C4 (amended): when a non-empty baseline is loaded, a metric key
present in current but absent from the baseline is judged against the
fixed 80% floor — below the floor it is a violation and the run exits 1
with the baseline unchanged, and when every new key is at or above the
floor (and, for the per-file check, no regression or global violation
blocks) the run passes; but when the baseline is empty or missing the
floor is not enforced: the coverage ratchet adopts the snapshot and exits
0, and the per-file check checks only the global minimum. -/
theorem new_file_floor_behaviour :
    (∀ (coverage baseline : RatDict) (kv : String × Rat), baseline ≠ [] →
      kv ∈ coverage → rget baseline kv.1 = none → kv.2 < COVERAGE_THRESHOLD →
      cr_run coverage baseline = (1, baseline)) ∧
    (∀ coverage baseline : RatDict, baseline ≠ [] → coverage ≠ [] →
      (∀ kv ∈ coverage, rget baseline kv.1 = none → COVERAGE_THRESHOLD ≤ kv.2) →
      (cr_run coverage baseline).1 = 0) ∧
    (∀ (globalCov : Rat) (fileCov : RatDict) (b : PFBaseline) (kv : String × Rat),
      b.files ≠ [] → kv ∈ fileCov → rget b.files kv.1 = none →
      kv.2 < pfDefaults.new_floor →
      pf_run pfDefaults globalCov fileCov (some b) = (1, some b)) ∧
    (∀ (globalCov : Rat) (fileCov : RatDict) (b : PFBaseline),
      pfDefaults.global_min ≤ globalCov →
      (∀ kv ∈ fileCov,
        match rget b.files kv.1 with
        | none => pfDefaults.new_floor ≤ kv.2
        | some bp => bp - kv.2 ≤ pfDefaults.tolerance) →
      (pf_run pfDefaults globalCov fileCov (some b)).1 = 0) := by
  refine ⟨?_, ?_, ?_, ?_⟩
  · intro coverage baseline kv hbne hmem hnone hlt
    have hcne : coverage ≠ [] := List.ne_nil_of_mem hmem
    have hmemf :
        kv ∈ coverage.filter
          (fun kv => rget baseline kv.1 == none && kv.2 < COVERAGE_THRESHOLD) := by
      rw [List.mem_filter]
      exact ⟨hmem, by simp [hnone, hlt]⟩
    have hpos :
        0 < (coverage.filter
          (fun kv => rget baseline kv.1 == none && kv.2 < COVERAGE_THRESHOLD)).length :=
      List.length_pos.mpr (List.ne_nil_of_mem hmemf)
    unfold cr_run
    rw [if_neg hcne, if_neg hbne, if_pos hpos]
  · intro coverage baseline hbne hcne hfloor
    have hfilter :
        coverage.filter
          (fun kv => rget baseline kv.1 == none && kv.2 < COVERAGE_THRESHOLD) = [] := by
      rw [List.filter_eq_nil_iff]
      intro kv hkv
      rcases hr : rget baseline kv.1 with _ | v
      · have hge : COVERAGE_THRESHOLD ≤ kv.2 := hfloor kv hkv hr
        have : ¬ kv.2 < COVERAGE_THRESHOLD := not_lt.mpr hge
        simp [this]
      · simp
    unfold cr_run
    rw [if_neg hcne, if_neg hbne, hfilter]
    rfl
  · intro globalCov fileCov b kv hbne hmem hnone hlt
    have hmemf :
        kv ∈ fileCov.filter (fun kv =>
          match rget b.files kv.1 with
          | none => decide (kv.2 < pfDefaults.new_floor)
          | some bp => decide (bp - kv.2 > pfDefaults.tolerance)) := by
      rw [List.mem_filter]
      refine ⟨hmem, ?_⟩
      rw [hnone]
      simpa using hlt
    have hpos :
        0 < (fileCov.filter (fun kv =>
          match rget b.files kv.1 with
          | none => decide (kv.2 < pfDefaults.new_floor)
          | some bp => decide (bp - kv.2 > pfDefaults.tolerance))).length :=
      List.length_pos.mpr (List.ne_nil_of_mem hmemf)
    have hviol : pf_violations pfDefaults globalCov fileCov (some b) ≠ 0 := by
      unfold pf_violations
      simp only
      rw [if_neg hbne]
      omega
    unfold pf_run
    rw [if_neg hviol]
  · intro globalCov fileCov b hg hok
    have hviol : pf_violations pfDefaults globalCov fileCov (some b) = 0 := by
      unfold pf_violations
      have hgv : ¬ globalCov < pfDefaults.global_min := not_lt.mpr hg
      simp only [hgv, if_false]
      split
      · rfl
      · have hfilter :
            fileCov.filter (fun kv =>
              match rget b.files kv.1 with
              | none => decide (kv.2 < pfDefaults.new_floor)
              | some bp => decide (bp - kv.2 > pfDefaults.tolerance)) = [] := by
          rw [List.filter_eq_nil_iff]
          intro kv hkv
          have := hok kv hkv
          rcases hr : rget b.files kv.1 with _ | bp
          · rw [hr] at this
            simpa using not_lt.mpr this
          · rw [hr] at this
            simpa using not_lt.mpr this
        rw [hfilter]
        rfl
    unfold pf_run
    rw [if_pos hviol]
    split
    · split
      · rfl
      · rfl
    · rfl

/-- Witness for C4 (amended) at concrete inputs: against the non-empty
baseline `{old.py: 90}`, the new file at 10% is blocked with the baseline
unchanged, and a new file at 85% passes. -/
theorem new_file_floor_behaviour_witness :
    cr_run [("new.py", 10)] [("old.py", 90)] = (1, [("old.py", 90)]) ∧
    (cr_run [("new.py", 85), ("old.py", 90)] [("old.py", 90)]).1 = 0 :=
  ⟨new_file_floor_behaviour.1 [("new.py", 10)] [("old.py", 90)] ("new.py", 10)
      (by decide) (by decide) (by decide) (by decide),
   new_file_floor_behaviour.2.1 [("new.py", 85), ("old.py", 90)] [("old.py", 90)]
      (by decide) (by decide) (by decide)⟩

/-- C9: in the PyPI dependency-hallucination check, a registry lookup
that fails with a non-404 HTTP error, times out, or raises any other
exception yields `{exists: True, age_days: 999}`, which the blocking
rule never flags (999 ≥ 30); and the only outcome reported as
nonexistent is an HTTP 404 response. -/
theorem pypi_lookup_failure_trusted :
    (∀ (pkg : String) (code : Nat), code ≠ 404 →
      check_pypi pkg (.httpError code) =
        { pkgExists := true, age_days := 999, name := pkg } ∧
      pkg_blocked (check_pypi pkg (.httpError code)) = false) ∧
    (∀ pkg : String,
      check_pypi pkg .otherFailure =
        { pkgExists := true, age_days := 999, name := pkg } ∧
      pkg_blocked (check_pypi pkg .otherFailure) = false) ∧
    (∀ (pkg : String) (resp : PyPIResponse),
      (check_pypi pkg resp).pkgExists = false → resp = .httpError 404) := by
  refine ⟨?_, ?_, ?_⟩
  · intro pkg code hne
    have h : check_pypi pkg (.httpError code) =
        { pkgExists := true, age_days := 999, name := pkg } := by
      simp only [check_pypi]
      rw [if_neg hne]
    refine ⟨h, ?_⟩
    rw [h]
    rfl
  · intro pkg
    exact ⟨rfl, rfl⟩
  · intro pkg resp h
    cases resp with
    | success infoName ageDays =>
      cases ageDays <;> simp [check_pypi] at h
    | httpError code =>
      by_cases hc : code = 404
      · rw [hc]
      · simp only [check_pypi] at h
        rw [if_neg hc] at h
        simp at h
    | otherFailure =>
      simp [check_pypi] at h

/-- Witness for C9 at a concrete input: an HTTP 500 response is treated
as an existing, 999-day-old (trusted) package and is not blocked. -/
theorem pypi_lookup_failure_trusted_witness :
    check_pypi "leftpad" (.httpError 500) =
      { pkgExists := true, age_days := 999, name := "leftpad" } ∧
    pkg_blocked (check_pypi "leftpad" (.httpError 500)) = false :=
  pypi_lookup_failure_trusted.1 "leftpad" 500 (by decide)

/-- Auxiliary: when the `_is_silent` loop runs to completion (returns
True), every statement it passed was a `pass` or an expression
statement, and no expression statement was a logging call. -/
theorem is_silent_loop_true {l : List PyStmt} (h : is_silent_loop l = true) :
    ∀ s ∈ l, isPassOrExprStmt s = true ∧
      ∀ f, s = .exprStmt (.call f) → is_logging_call f = false := by
  induction l with
  | nil => intro s hs; cases hs
  | cons stmt rest ih =>
    intro s hs
    cases stmt with
    | passStmt =>
      rw [is_silent_loop] at h
      rcases List.mem_cons.mp hs with rfl | hmem
      · exact ⟨rfl, fun f hf => nomatch hf⟩
      · exact ih h s hmem
    | raiseStmt => rw [is_silent_loop] at h; cases h
    | returnStmt => rw [is_silent_loop] at h; cases h
    | exprStmt v =>
      cases v with
      | call f =>
        rw [is_silent_loop] at h
        rcases hl : is_logging_call f with _ | _
        · rw [hl, if_neg (by simp)] at h
          rcases List.mem_cons.mp hs with rfl | hmem
          · refine ⟨rfl, fun f' hf' => ?_⟩
            obtain ⟨rfl⟩ : f = f' := by
              injection hf' with h1
              injection h1
            exact hl
          · exact ih h s hmem
        · rw [hl, if_pos rfl] at h
          cases h
      | nonCall =>
        rw [is_silent_loop] at h
        rcases List.mem_cons.mp hs with rfl | hmem
        · exact ⟨rfl, fun f hf => by injection hf with h1; injection h1⟩
        · exact ih h s hmem
    | otherStmt => rw [is_silent_loop] at h; cases h

/-- C10: a handler whose body contains a statement that is neither a
`pass` nor an expression statement (an assignment, a loop, ... — and also
`raise`/`return`) is never reported as a silent catch; and every reported
handler consists entirely of `pass` statements and expression statements
none of which is a logging call. -/
theorem silent_catch_classification :
    (∀ h : Handler, (∃ s ∈ h.body, isPassOrExprStmt s = false) → reports h = false) ∧
    (∀ h : Handler, reports h = true →
      ∀ s ∈ h.body, isPassOrExprStmt s = true ∧
        ∀ f, s = .exprStmt (.call f) → is_logging_call f = false) := by
  constructor
  · rintro h ⟨s, hs, hbad⟩
    unfold reports
    have hne : ¬ h.body.isEmpty := by
      cases hb : h.body with
      | nil => rw [hb] at hs; cases hs
      | cons a l => simp
    rcases hsil : is_silent h.body with _ | _
    · simp [hsil]
    · exfalso
      unfold is_silent at hsil
      rw [if_neg hne] at hsil
      have := (is_silent_loop_true hsil s hs).1
      rw [this] at hbad
      cases hbad
  · intro h hr s hs
    have hsil : is_silent h.body = true := by
      unfold reports at hr
      simp only [Bool.and_eq_true] at hr
      exact hr.1
    have hne : ¬ h.body.isEmpty := by
      cases hb : h.body with
      | nil => rw [hb] at hs; cases hs
      | cons a l => simp
    unfold is_silent at hsil
    rw [if_neg hne] at hsil
    exact is_silent_loop_true hsil s hs

/-- Witness for C10 at concrete inputs: a handler whose body is a single
assignment is not reported even without logging, return or re-raise,
while a reported handler (body `pass`) indeed consists only of pass/expr
statements. -/
theorem silent_catch_classification_witness :
    reports { lineno := 3, clause := .bare, body := [.otherStmt], hasMarker := false }
      = false ∧
    isPassOrExprStmt PyStmt.passStmt = true :=
  ⟨silent_catch_classification.1
      { lineno := 3, clause := .bare, body := [.otherStmt], hasMarker := false }
      ⟨.otherStmt, by decide, by decide⟩,
   (silent_catch_classification.2
      { lineno := 7, clause := .bare, body := [.passStmt], hasMarker := false }
      (by decide) .passStmt (by decide)).1⟩

/-- Auxiliary: the summation loop of check_type_holes.py computes the
componentwise sums of the per-file facts. -/
theorem foldl_pair_sum (g1 g2 : PyFile → Nat) :
    ∀ (files : List PyFile) (acc : Nat × Nat),
      files.foldl (fun a f => (a.1 + g1 f, a.2 + g2 f)) acc =
        (acc.1 + (files.map g1).sum, acc.2 + (files.map g2).sum) := by
  intro files
  induction files with
  | nil => intro acc; simp
  | cons f rest ih =>
    intro acc
    simp only [List.foldl_cons, List.map_cons, List.sum_cons]
    rw [ih]
    simp only [Prod.mk.injEq]
    constructor <;> omega

/-- Auxiliary: `th_scan` as componentwise sums over the scanned files. -/
theorem th_scan_eq (files : List PyFile) :
    th_scan files = ((files.map (fun f => (analyze_file f).type_ignore)).sum,
      (files.map (fun f => (analyze_file f).anyHoles)).sum) := by
  unfold th_scan
  rw [foldl_pair_sum]
  simp

/-- C7 counterexample: the claim fails twice over.  A file that reads
fine but fails to parse (`SyntaxError`) still contributes its
regex-counted `# type: ignore` facts in check_type_holes.py —
`analyze_file` counts the raw text before attempting `ast.parse` — so a
scan over just that file yields total 1, not zero facts.  And in
check_silent_catches.py a file with undecodable bytes raises
`UnicodeDecodeError`, which the `except (OSError, SyntaxError)` clause
does not catch, aborting the overall scan before the remaining files are
analyzed. -/
theorem scanner_parse_failure_cex :
    analyze_file { readOk := true, tiCount := 1, parseOk := false, anyCount := 7 } =
      { type_ignore := 1, anyHoles := 0, total := 1 } ∧
    th_scan [{ readOk := true, tiCount := 1, parseOk := false, anyCount := 7 }] = (1, 0) ∧
    sc_scan [.decodeError, .parsed []] = .error () :=
  ⟨rfl, rfl, rfl⟩

/-- C7 (amended): in the type-hole scanner a file with undecodable bytes
contributes zero facts (its read error is caught) and a file with
invalid syntax contributes zero AST-derived facts while keeping its
regex-derived type-ignore facts, the remaining files still analyzed; in
the silent-catch check a caught `OSError`/`SyntaxError` makes the file
contribute zero facts and the scan continues past it, but a file with
undecodable bytes raises out of the overall scan — `UnicodeDecodeError`
is not in the `except` clause — and aborts it; a syntax error never
aborts either scan. -/
theorem scanner_parse_failure_behaviour :
    (∀ f : PyFile, f.readOk = false →
      analyze_file f = { type_ignore := 0, anyHoles := 0, total := 0 }) ∧
    (∀ f : PyFile, f.parseOk = false → (analyze_file f).anyHoles = 0) ∧
    (∀ (fs1 fs2 : List PyFile) (f : PyFile), f.readOk = false →
      th_scan (fs1 ++ f :: fs2) = th_scan (fs1 ++ fs2)) ∧
    sc_check_file .caughtError = .ok [] ∧
    (∀ fs1 fs2 : List SCFileOutcome,
      sc_scan (fs1 ++ .caughtError :: fs2) = sc_scan (fs1 ++ fs2)) ∧
    (∀ fs1 fs2 : List SCFileOutcome, (∀ f ∈ fs1, f ≠ .decodeError) →
      sc_scan (fs1 ++ .decodeError :: fs2) = .error ()) := by
  refine ⟨?_, ?_, ?_, rfl, ?_, ?_⟩
  · intro f hread
    unfold analyze_file
    rw [hread]
    rfl
  · intro f hparse
    unfold analyze_file
    cases hr : f.readOk with
    | false => rfl
    | true =>
      simp only [Bool.not_true, Bool.false_eq_true, if_false]
      rw [hparse]
      rfl
  · intro fs1 fs2 f hread
    have hzero : analyze_file f = { type_ignore := 0, anyHoles := 0, total := 0 } := by
      unfold analyze_file
      rw [hread]
      rfl
    rw [th_scan_eq, th_scan_eq]
    simp [hzero]
  · intro fs1 fs2
    induction fs1 with
    | nil =>
      simp only [List.nil_append, sc_scan, sc_check_file]
      cases h : sc_scan fs2 with
      | error e => rfl
      | ok acc => simp
    | cons f fs1' ih =>
      simp only [List.cons_append, sc_scan, List.append_eq]
      rw [ih]
  · intro fs1 fs2
    induction fs1 with
    | nil =>
      intro _
      rfl
    | cons f fs1' ih =>
      intro hclean
      have hf : f ≠ SCFileOutcome.decodeError := hclean f (List.mem_cons_self f fs1')
      have hih := ih (fun x hx => hclean x (List.mem_cons_of_mem f hx))
      simp only [List.cons_append, sc_scan, List.append_eq]
      rw [hih]
      cases f with
      | parsed hs => rfl
      | caughtError => rfl
      | decodeError => exact absurd rfl hf

/-- Witness for C7 (amended) at concrete inputs: an undecodable file
yields all-zero type-hole facts; a silent-catch scan over a good file, a
caught-error file and another good file equals the scan without the
broken file; and a scan that meets an undecodable file after a good one
aborts with the exception. -/
theorem scanner_parse_failure_behaviour_witness :
    analyze_file { readOk := false, tiCount := 4, parseOk := true, anyCount := 2 } =
      { type_ignore := 0, anyHoles := 0, total := 0 } ∧
    sc_scan [.parsed [{ lineno := 2, clause := .bare, body := [.passStmt], hasMarker := false }],
        .caughtError, .parsed []] =
      sc_scan [.parsed [{ lineno := 2, clause := .bare, body := [.passStmt], hasMarker := false }],
        .parsed []] ∧
    sc_scan [.parsed [{ lineno := 2, clause := .bare, body := [.passStmt], hasMarker := false }],
        .decodeError, .parsed []] = .error () :=
  ⟨scanner_parse_failure_behaviour.1
      { readOk := false, tiCount := 4, parseOk := true, anyCount := 2 } rfl,
   scanner_parse_failure_behaviour.2.2.2.2.1
      [.parsed [{ lineno := 2, clause := .bare, body := [.passStmt], hasMarker := false }]]
      [.parsed []],
   scanner_parse_failure_behaviour.2.2.2.2.2
      [.parsed [{ lineno := 2, clause := .bare, body := [.passStmt], hasMarker := false }]]
      [.parsed []] (by decide)⟩

/-- Auxiliary: a list's `getLast?` value is a member of the list. -/
theorem mem_of_getLast?_eq {l : List String} {a : String} (h : l.getLast? = some a) :
    a ∈ l := by
  have hx : a ∈ l.getLast? := by rw [h]; rfl
  obtain ⟨hne, heq⟩ := List.mem_getLast?_eq_getLast hx
  rw [heq]
  exact List.getLast_mem hne

/-- Auxiliary: the dependency loop leaves `rec_stack` unchanged whenever
the abstracted recursive call does (the loop only pushes and later
discards inside `dfs`). -/
theorem dfsDeps_recStack (rec : String → List String → DfsState → Option DfsState)
    (hrec : ∀ n p st st', rec n p st = some st' → st'.recStack = st.recStack) :
    ∀ (deps path : List String) (st st' : DfsState),
      dfsDeps rec deps path st = some st' → st'.recStack = st.recStack := by
  intro deps
  induction deps with
  | nil =>
    intro path st st' h
    rw [dfsDeps] at h
    injection h with h2
    rw [← h2]
  | cons dep rest ih =>
    intro path st st' h
    rw [dfsDeps] at h
    split at h
    · exact ih path { st with cycles := st.cycles ++ [cycleAt path dep] } st' h
    · split at h
      · exact ih path st st' h
      · rcases hr : rec dep (path ++ [dep]) st with _ | st2
        · rw [hr] at h
          cases h
        · rw [hr] at h
          rw [ih path st2 st' h]
          exact hrec dep (path ++ [dep]) st st2 hr

/-- Auxiliary: `dfs` restores `rec_stack` on return — the node pushed on
entry is discarded on exit (`rec_stack.discard(node)`), so the stack
after a completed call equals the stack before it. -/
theorem dfs_recStack (g : Graph) :
    ∀ (fuel : Nat) (n : String) (p : List String) (st st' : DfsState),
      dfs g fuel n p st = some st' → st'.recStack = st.recStack := by
  intro fuel
  induction fuel with
  | zero =>
    intro n p st st' h
    cases h
  | succ f ih =>
    intro n p st st' h
    rw [dfs] at h
    rcases hM : dfsDeps (dfs g f) (getDeps g n)
        p { visited := n :: st.visited, recStack := n :: st.recStack, cycles := st.cycles }
      with _ | st2
    · rw [hM] at h
      cases h
    · rw [hM] at h
      have h' : some (DfsState.mk st2.visited (st2.recStack.erase n) st2.cycles) = some st' := h
      injection h' with h2
      have h3 := dfsDeps_recStack (dfs g f) (fun n p st st' => ih n p st st') (getDeps g n) p
        { visited := n :: st.visited, recStack := n :: st.recStack, cycles := st.cycles } st2 hM
      rw [← h2]
      show st2.recStack.erase n = st.recStack
      rw [h3]
      show (n :: st.recStack).erase n = st.recStack
      exact List.erase_cons_head n st.recStack

/-- Auxiliary: pointwise implication between filter predicates bounds the
filtered lengths. -/
theorem filter_length_le_of_imp (l : List String) (p q : String → Bool)
    (h : ∀ x ∈ l, p x = true → q x = true) :
    (l.filter p).length ≤ (l.filter q).length := by
  induction l with
  | nil => simp
  | cons a t ih =>
    have ht : ∀ x ∈ t, p x = true → q x = true := fun x hx => h x (List.mem_cons_of_mem a hx)
    rcases hp : p a with _ | _
    · rcases hq : q a with _ | _
      · simpa [hp, hq] using ih ht
      · simp only [List.filter_cons, hp, hq, if_false, if_true, List.length_cons]
        exact Nat.le_succ_of_le (ih ht)
    · have hqa : q a = true := h a (List.mem_cons_self a t) hp
      simp only [List.filter_cons, hp, hqa, if_true, List.length_cons]
      exact Nat.succ_le_succ (ih ht)

/-- Auxiliary: growing the visited set cannot increase the number of
unvisited nodes. -/
theorem unvisitedCount_mono (g : Graph) (v v' : List String)
    (h : ∀ x ∈ v, x ∈ v') : unvisitedCount g v' ≤ unvisitedCount g v := by
  unfold unvisitedCount
  apply filter_length_le_of_imp
  intro x _ hx
  simp only [decide_eq_true_eq] at hx ⊢
  intro hmem
  exact hx (h x hmem)

/-- Auxiliary: an unvisited node of the graph witnesses a positive
unvisited count. -/
theorem unvisitedCount_pos (g : Graph) (v : List String) (n : String)
    (hn : n ∈ allNodes g) (hv : n ∉ v) : 0 < unvisitedCount g v := by
  unfold unvisitedCount
  have hmem : n ∈ (allNodes g).filter (fun x => decide (x ∉ v)) :=
    List.mem_filter.mpr ⟨hn, by simpa using hv⟩
  exact List.length_pos.mpr (List.ne_nil_of_mem hmem)

/-- Auxiliary: filtering a duplicate-free list against a visited set
enlarged by one of its unvisited members strictly shrinks the count. -/
theorem filter_cons_visited_lt (n : String) (v : List String) :
    ∀ l : List String, l.Nodup → n ∈ l → n ∉ v →
      (l.filter (fun x => decide (x ∉ n :: v))).length <
        (l.filter (fun x => decide (x ∉ v))).length := by
  intro l
  induction l with
  | nil => intro _ h; cases h
  | cons a t ih =>
    intro hnd hmem hv
    have hand : a ∉ t ∧ t.Nodup := by
      rw [List.nodup_cons] at hnd
      exact hnd
    rcases List.mem_cons.mp hmem with rfl | hmt
    · have hfeq : t.filter (fun x => decide (x ∉ n :: v)) = t.filter (fun x => decide (x ∉ v)) := by
        apply List.filter_congr
        intro x hx
        have hxa : x ≠ n := fun hxa => hand.1 (hxa ▸ hx)
        simp only [decide_eq_decide, List.mem_cons]
        constructor
        · intro hno hxv
          exact hno (Or.inr hxv)
        · intro hno hor
          rcases hor with h1 | h2
          · exact hxa h1
          · exact hno h2
      simp only [List.filter_cons]
      have h1 : decide (n ∉ n :: v) = false := by simp
      have h2 : decide (n ∉ v) = true := by simpa using hv
      rw [h1, h2, hfeq]
      simp
    · have hna : n ≠ a := fun hna => hand.1 (hna ▸ hmt)
      have hlt := ih hand.2 hmt hv
      simp only [List.filter_cons]
      have hsame : decide (a ∉ n :: v) = decide (a ∉ v) := by
        simp only [decide_eq_decide, List.mem_cons]
        constructor
        · intro hno hav
          exact hno (Or.inr hav)
        · intro hno hor
          rcases hor with h1 | h2
          · exact hna h1.symm
          · exact hno h2
      rw [hsame]
      rcases decide (a ∉ v) with _ | _
      · simpa using hlt
      · simpa using Nat.succ_lt_succ hlt

/-- Auxiliary: visiting an unvisited graph node strictly decreases the
unvisited count. -/
theorem unvisitedCount_cons_lt (g : Graph) (v : List String) (n : String)
    (hn : n ∈ allNodes g) (hv : n ∉ v) :
    unvisitedCount g (n :: v) < unvisitedCount g v := by
  unfold unvisitedCount
  exact filter_cons_visited_lt n v (allNodes g)
    (by unfold allNodes; exact List.nodup_dedup _) hn hv

/-- Auxiliary: every dependency listed in the graph is among its nodes. -/
theorem deps_mem_allNodes (g : Graph) (node d : String) (h : d ∈ getDeps g node) :
    d ∈ allNodes g := by
  unfold getDeps at h
  rcases hf : g.find? (fun kv => kv.1 == node) with _ | kv
  · rw [hf] at h
    cases h
  · rw [hf] at h
    have hkv : kv ∈ g := List.mem_of_find?_eq_some hf
    unfold allNodes
    rw [List.mem_dedup, List.mem_append]
    right
    clear hf
    induction g with
    | nil => cases hkv
    | cons e rest ih =>
      rcases List.mem_cons.mp hkv with rfl | hmem
      · simp only [List.foldr_cons, List.mem_append]
        exact Or.inl h
      · simp only [List.foldr_cons, List.mem_append]
        exact Or.inr (ih hmem)

/-- Auxiliary: every key of the graph is among its nodes. -/
theorem key_mem_allNodes (g : Graph) (kv : String × List String) (h : kv ∈ g) :
    kv.1 ∈ allNodes g := by
  unfold allNodes
  rw [List.mem_dedup, List.mem_append]
  left
  exact List.mem_map_of_mem Prod.fst h

/-- Auxiliary: the dependency loop completes (with a monotonically grown
visited set) whenever the abstracted recursive call completes on every
unvisited graph node within the remaining fuel budget. -/
theorem dfsDeps_succeeds (g : Graph) (f : Nat)
    (rec : String → List String → DfsState → Option DfsState)
    (hrec : ∀ (n : String) (p : List String) (st : DfsState),
      n ∉ st.visited → n ∈ allNodes g → unvisitedCount g st.visited ≤ f →
      ∃ st', rec n p st = some st' ∧ ∀ x ∈ st.visited, x ∈ st'.visited) :
    ∀ (deps path : List String) (st : DfsState),
      (∀ d ∈ deps, d ∈ allNodes g) → unvisitedCount g st.visited ≤ f →
      ∃ st', dfsDeps rec deps path st = some st' ∧ ∀ x ∈ st.visited, x ∈ st'.visited := by
  intro deps
  induction deps with
  | nil =>
    intro path st _ _
    exact ⟨st, rfl, fun x hx => hx⟩
  | cons dep rest ih =>
    intro path st hdeps hfuel
    have hdall : dep ∈ allNodes g := hdeps dep (List.mem_cons_self dep rest)
    have hrest : ∀ d ∈ rest, d ∈ allNodes g := fun d hd => hdeps d (List.mem_cons_of_mem dep hd)
    rw [dfsDeps]
    by_cases hstack : dep ∈ st.recStack
    · rw [if_pos hstack]
      exact ih path { st with cycles := st.cycles ++ [cycleAt path dep] } hrest hfuel
    · rw [if_neg hstack]
      by_cases hvis : dep ∈ st.visited
      · rw [if_pos hvis]
        exact ih path st hrest hfuel
      · rw [if_neg hvis]
        obtain ⟨st2, hst2, hmono⟩ := hrec dep (path ++ [dep]) st hvis hdall hfuel
        rw [hst2]
        have hfuel2 : unvisitedCount g st2.visited ≤ f :=
          le_trans (unvisitedCount_mono g st.visited st2.visited hmono) hfuel
        obtain ⟨st3, hst3, hmono3⟩ := ih path st2 hrest hfuel2
        exact ⟨st3, hst3, fun x hx => hmono3 x (hmono x hx)⟩

/-- Auxiliary: `dfs` completes on any unvisited graph node once the fuel
covers the number of still-unvisited nodes, and only grows the visited
set; this is the heart of the termination argument. -/
theorem dfs_succeeds (g : Graph) :
    ∀ (fuel : Nat) (n : String) (p : List String) (st : DfsState),
      n ∉ st.visited → n ∈ allNodes g → unvisitedCount g st.visited ≤ fuel →
      ∃ st', dfs g fuel n p st = some st' ∧ ∀ x ∈ st.visited, x ∈ st'.visited := by
  intro fuel
  induction fuel with
  | zero =>
    intro n p st hv hn hfuel
    have hpos := unvisitedCount_pos g st.visited n hn hv
    omega
  | succ f ih =>
    intro n p st hv hn hfuel
    rw [dfs]
    have hlt : unvisitedCount g (n :: st.visited) < unvisitedCount g st.visited :=
      unvisitedCount_cons_lt g st.visited n hn hv
    have hfuel1 : unvisitedCount g
        (DfsState.mk (n :: st.visited) (n :: st.recStack) st.cycles).visited ≤ f := by
      show unvisitedCount g (n :: st.visited) ≤ f
      omega
    obtain ⟨st2, hst2, hmono⟩ := dfsDeps_succeeds g f (dfs g f) ih (getDeps g n) p
      (DfsState.mk (n :: st.visited) (n :: st.recStack) st.cycles)
      (fun d hd => deps_mem_allNodes g n d hd) hfuel1
    rw [hst2]
    refine ⟨DfsState.mk st2.visited (st2.recStack.erase n) st2.cycles, rfl, ?_⟩
    intro x hx
    exact hmono x (List.mem_cons_of_mem n hx)

/-- Auxiliary: the root loop completes whenever the fuel covers the
number of unvisited nodes and every root is a graph node. -/
theorem runRoots_succeeds (g : Graph) (fuel : Nat) :
    ∀ (roots : List (String × List String)) (st : DfsState),
      (∀ kv ∈ roots, kv.1 ∈ allNodes g) → unvisitedCount g st.visited ≤ fuel →
      ∃ st', runRoots g fuel roots st = some st' := by
  intro roots
  induction roots with
  | nil => intro st _ _; exact ⟨st, rfl⟩
  | cons kv rest ih =>
    intro st hroots hfuel
    have hk : kv.1 ∈ allNodes g := hroots kv (List.mem_cons_self kv rest)
    have hrest : ∀ e ∈ rest, e.1 ∈ allNodes g := fun e he => hroots e (List.mem_cons_of_mem kv he)
    rcases kv with ⟨mod, deps⟩
    rw [runRoots]
    by_cases hvis : mod ∈ st.visited
    · rw [if_pos hvis]
      exact ih st hrest hfuel
    · rw [if_neg hvis]
      obtain ⟨st2, hst2, hmono⟩ := dfs_succeeds g fuel mod [mod] st hvis hk hfuel
      rw [hst2]
      exact ih st2 hrest
        (le_trans (unvisitedCount_mono g st.visited st2.visited hmono) hfuel)

/-- C8: the cycle-detection DFS terminates on every finite import graph,
however densely cyclic: with fuel equal to the number of graph nodes —
each node enters the visited set on first entry and is launched as a DFS
root at most once — the whole detection pass completes. -/
theorem dfs_terminates (g : Graph) : (runDetect g).isSome = true := by
  unfold runDetect
  have hinit : unvisitedCount g (initState).visited ≤ (allNodes g).length := by
    unfold unvisitedCount initState
    exact List.length_filter_le _ _
  obtain ⟨st', hst'⟩ := runRoots_succeeds g (allNodes g).length g initState
    (fun kv hkv => key_mem_allNodes g kv hkv) hinit
  rw [hst']
  rfl

/-- Auxiliary: `path[path.index(dep):]` starts at the first occurrence of
`dep` (the slice the detector turns into a recorded cycle). -/
theorem drop_findIdx_cons (dep : String) :
    ∀ l : List String, dep ∈ l →
      ∃ t, l.drop (l.findIdx (fun x => x == dep)) = dep :: t := by
  intro l
  induction l with
  | nil => intro h; cases h
  | cons a t ih =>
    intro hmem
    rw [List.findIdx_cons]
    rcases hb : (a == dep) with _ | _
    · have hne : dep ≠ a := by
        intro he
        rw [he] at hb
        simp at hb
      have hmt : dep ∈ t := by
        rcases List.mem_cons.mp hmem with h1 | h2
        · exact absurd h1 hne
        · exact h2
      obtain ⟨t2, ht2⟩ := ih hmt
      refine ⟨t2, ?_⟩
      simpa using ht2
    · have he : a = dep := by simpa using hb
      refine ⟨t, ?_⟩
      simp [he]

/-- Auxiliary: the slice `path[path.index(dep):] + [dep]` recorded at a
back edge is a genuine cycle of the graph: it starts and ends at `dep`,
and consecutive entries are edges (the closing pair by the back edge
`node → dep` itself). -/
theorem cycleAt_sound (g : Graph) (path : List String) (node dep : String)
    (hlast : path.getLast? = some node) (hchain : path.Chain' (isEdge g))
    (hmem : dep ∈ path) (hdep : isEdge g node dep) :
    IsCycleOf g (cycleAt path dep) := by
  obtain ⟨t, hdrop⟩ := drop_findIdx_cons dep path hmem
  unfold cycleAt
  rw [hdrop]
  have hsuffix : (dep :: t) <:+ path := by
    rw [← hdrop]
    exact List.drop_suffix _ _
  have hlast2 : (dep :: t).getLast? = some node := by
    obtain ⟨pre, hpre⟩ := hsuffix
    rw [← hpre] at hlast
    rw [← hlast]
    exact (List.getLast?_append_of_ne_nil pre (by simp)).symm
  refine ⟨by simp, ?_, ?_⟩
  · rw [List.getLast?_concat, List.cons_append]
    rfl
  · rw [chainB_iff]
    rw [List.chain'_append]
    refine ⟨hchain.suffix hsuffix, List.chain'_singleton dep, ?_⟩
    intro x hx y hy
    simp only [List.head?_cons, Option.mem_def, Option.some.injEq] at hy
    rw [hlast2] at hx
    simp only [Option.mem_def, Option.some.injEq] at hx
    rw [← hx, ← hy]
    exact hdep

/-- Auxiliary: the dependency loop only ever appends genuine cycles,
provided the path is a genuine edge path ending at the current node, the
recursion stack stays within the path, and the abstracted recursive call
preserves both the stack and the genuine-cycles invariant. -/
theorem dfsDeps_sound (g : Graph) (node : String)
    (rec : String → List String → DfsState → Option DfsState)
    (hpres : ∀ n p st st', rec n p st = some st' → st'.recStack = st.recStack)
    (hrec : ∀ (n : String) (p : List String) (st st' : DfsState),
      p ≠ [] → p.getLast? = some n → p.Chain' (isEdge g) →
      (∀ x ∈ st.recStack, x ∈ p) → (∀ c ∈ st.cycles, IsCycleOf g c) →
      rec n p st = some st' → ∀ c ∈ st'.cycles, IsCycleOf g c) :
    ∀ (deps path : List String) (st st' : DfsState),
      (∀ d ∈ deps, d ∈ getDeps g node) → path ≠ [] →
      path.getLast? = some node → path.Chain' (isEdge g) →
      (∀ x ∈ st.recStack, x ∈ path) → (∀ c ∈ st.cycles, IsCycleOf g c) →
      dfsDeps rec deps path st = some st' → ∀ c ∈ st'.cycles, IsCycleOf g c := by
  intro deps
  induction deps with
  | nil =>
    intro path st st' _ _ _ _ _ hcyc h
    rw [dfsDeps] at h
    injection h with h2
    rw [← h2]
    exact hcyc
  | cons dep rest ih =>
    intro path st st' hdeps hpne hlast hchain hstack hcyc h
    have hddep : dep ∈ getDeps g node := hdeps dep (List.mem_cons_self dep rest)
    have hrest : ∀ d ∈ rest, d ∈ getDeps g node :=
      fun d hd => hdeps d (List.mem_cons_of_mem dep hd)
    rw [dfsDeps] at h
    split at h
    · refine ih path { st with cycles := st.cycles ++ [cycleAt path dep] } st' hrest hpne hlast
        hchain hstack ?_ h
      intro c hc
      rcases List.mem_append.mp hc with h1 | h2
      · exact hcyc c h1
      · have hcz : c = cycleAt path dep := by simpa using h2
        rw [hcz]
        have hdmem : dep ∈ path := by
          rename_i hin
          exact hstack dep hin
        exact cycleAt_sound g path node dep hlast hchain hdmem hddep
    · split at h
      · exact ih path st st' hrest hpne hlast hchain hstack hcyc h
      · rcases hr : rec dep (path ++ [dep]) st with _ | st2
        · rw [hr] at h
          cases h
        · rw [hr] at h
          have hchain2 : (path ++ [dep]).Chain' (isEdge g) := by
            rw [List.chain'_append]
            refine ⟨hchain, List.chain'_singleton dep, ?_⟩
            intro x hx y hy
            simp only [List.head?_cons, Option.mem_def, Option.some.injEq] at hy
            rw [hlast] at hx
            simp only [Option.mem_def, Option.some.injEq] at hx
            rw [← hx, ← hy]
            exact hddep
          have hcyc2 : ∀ c ∈ st2.cycles, IsCycleOf g c :=
            hrec dep (path ++ [dep]) st st2 (by simp) (List.getLast?_concat path)
              hchain2 (fun x hx => List.mem_append_left [dep] (hstack x hx)) hcyc hr
          have hstack2 : ∀ x ∈ st2.recStack, x ∈ path := by
            intro x hx
            rw [hpres dep (path ++ [dep]) st st2 hr] at hx
            exact hstack x hx
          exact ih path st2 st' hrest hpne hlast hchain hstack2 hcyc2 h

/-- Auxiliary: `dfs` only ever appends genuine cycles when launched on a
genuine edge path ending at its node with the recursion stack inside the
path. -/
theorem dfs_sound (g : Graph) :
    ∀ (fuel : Nat) (n : String) (p : List String) (st st' : DfsState),
      p ≠ [] → p.getLast? = some n → p.Chain' (isEdge g) →
      (∀ x ∈ st.recStack, x ∈ p) → (∀ c ∈ st.cycles, IsCycleOf g c) →
      dfs g fuel n p st = some st' → ∀ c ∈ st'.cycles, IsCycleOf g c := by
  intro fuel
  induction fuel with
  | zero =>
    intro n p st st' _ _ _ _ _ h
    cases h
  | succ f ih =>
    intro n p st st' hpne hlast hchain hstack hcyc h
    rw [dfs] at h
    rcases hM : dfsDeps (dfs g f) (getDeps g n)
        p (DfsState.mk (n :: st.visited) (n :: st.recStack) st.cycles) with _ | st2
    · rw [hM] at h
      cases h
    · rw [hM] at h
      have h' : some (DfsState.mk st2.visited (st2.recStack.erase n) st2.cycles) = some st' := h
      injection h' with h2
      have hstack1 : ∀ x ∈ (DfsState.mk (n :: st.visited) (n :: st.recStack) st.cycles).recStack,
          x ∈ p := by
        intro x hx
        rcases List.mem_cons.mp hx with rfl | hmem
        · exact mem_of_getLast?_eq hlast
        · exact hstack x hmem
      have hcyc2 := dfsDeps_sound g n (dfs g f) (fun a b c d => dfs_recStack g f a b c d)
        (fun a b c d => ih a b c d) (getDeps g n) p
        (DfsState.mk (n :: st.visited) (n :: st.recStack) st.cycles) st2
        (fun d hd => hd) hpne hlast hchain hstack1 hcyc hM
      rw [← h2]
      exact hcyc2

/-- Auxiliary: the root loop only accumulates genuine cycles. -/
theorem runRoots_sound (g : Graph) (fuel : Nat) :
    ∀ (roots : List (String × List String)) (st st' : DfsState),
      st.recStack = [] → (∀ c ∈ st.cycles, IsCycleOf g c) →
      runRoots g fuel roots st = some st' → ∀ c ∈ st'.cycles, IsCycleOf g c := by
  intro roots
  induction roots with
  | nil =>
    intro st st' _ hcyc h
    rw [runRoots] at h
    injection h with h2
    rw [← h2]
    exact hcyc
  | cons kv rest ih =>
    intro st st' hstack hcyc h
    rcases kv with ⟨mod, deps⟩
    rw [runRoots] at h
    split at h
    · exact ih st st' hstack hcyc h
    · rcases hr : dfs g fuel mod [mod] st with _ | st2
      · rw [hr] at h
        cases h
      · rw [hr] at h
        have hcyc2 : ∀ c ∈ st2.cycles, IsCycleOf g c := by
          refine dfs_sound g fuel mod [mod] st st2 (by simp) (by simp) (by simp) ?_ hcyc hr
          intro x hx
          rw [hstack] at hx
          cases hx
        have hstack2 : st2.recStack = [] := by
          rw [dfs_recStack g fuel mod [mod] st st2 hr]
          exact hstack
        exact ih st2 st' hstack2 hcyc2 h

/-- Auxiliary: every cycle the detector records is a genuine cycle of
the import graph. -/
theorem detectCycles_sound (g : Graph) :
    ∀ c ∈ detectCycles g, IsCycleOf g c := by
  intro c hc
  unfold detectCycles at hc
  rcases hR : runDetect g with _ | st
  · rw [hR] at hc
    cases hc
  · rw [hR] at hc
    unfold runDetect at hR
    exact runRoots_sound g (allNodes g).length g initState st rfl
      (fun c hc => by cases hc) hR c hc

/-- Auxiliary: the empty import graph has no edges, hence no cycle. -/
theorem acyclic_nil : Acyclic ([] : Graph) := by
  rintro c ⟨hlen, _, hch⟩
  rcases c with _ | ⟨a, _ | ⟨b, t2⟩⟩
  · simp at hlen
  · simp at hlen
  · rw [chainB] at hch
    simp [isEdge, getDeps] at hch

/-- C5: on the triangle `{A→B, B→C, C→A}` the detector records exactly
one cycle and that cycle contains all three nodes; on `{A→A}` it records
the one-node self-cycle `[A, A]`; and on any acyclic graph it records
zero cycles. -/
theorem cycle_detector_examples :
    (detectCycles gTriangle).length = 1 ∧
    (∀ c ∈ detectCycles gTriangle, "A" ∈ c ∧ "B" ∈ c ∧ "C" ∈ c) ∧
    detectCycles gSelfLoop = [["A", "A"]] ∧
    (∀ g : Graph, Acyclic g → detectCycles g = []) := by
  refine ⟨by decide, by decide, by decide, ?_⟩
  intro g hac
  rcases hd : detectCycles g with _ | ⟨c, rest⟩
  · rfl
  · exfalso
    have hc : c ∈ detectCycles g := by
      rw [hd]
      exact List.mem_cons_self c rest
    exact hac c (detectCycles_sound g c hc)

/-- Witness for C5 at a concrete acyclic input: the empty graph yields
zero recorded cycles. -/
theorem cycle_detector_examples_witness : detectCycles ([] : Graph) = [] :=
  cycle_detector_examples.2.2.2 [] acyclic_nil

/-- C6 counterexample: on `gMissed` — edges A→B, A→D, B→C, C→A, D→C —
the list `[A, D, C, A]` is a genuine cycle of the graph, but the
detector does not record it (when the traversal reaches C again via D,
C is already visited and off the recursion stack), so the detector does
not internally discover every cycle of the graph. -/
theorem cycles_not_all_discovered_cex :
    ¬ (∀ c : List String, IsCycleOf gMissed c → c ∈ detectCycles gMissed) := fun h =>
  absurd (h ["A", "D", "C", "A"] (by decide)) (by decide)

/-- C6 (amended): every cycle the detector records is a genuine cycle of
the import graph, recorded as a sequence starting and ending at the
repeated node; only the displayed report is capped to 5, not the
internal cycles list (which a hub graph pushes past 5) — but not every
cycle of the graph is discovered: a cycle whose closing edge reaches an
already fully-explored node off the recursion stack is missed. -/
theorem cycles_recorded_sound :
    (∀ (g : Graph) (c : List String), c ∈ detectCycles g → IsCycleOf g c) ∧
    (∀ g : Graph, displayedCycles g = (detectCycles g).take 5) ∧
    5 < (detectCycles gManyCycles).length := by
  refine ⟨fun g c hc => detectCycles_sound g c hc, fun g => rfl, by decide⟩

/-- Witness for C6 (amended) at a concrete input: the one cycle recorded
on the triangle graph is a genuine cycle. -/
theorem cycles_recorded_sound_witness :
    IsCycleOf gTriangle ["A", "B", "C", "A"] :=
  cycles_recorded_sound.1 gTriangle ["A", "B", "C", "A"] (by decide)
